import Mathlib

/-!
Verification of the markup-to-document-model pipeline of the
image-to-word MVP converter (`mvp_converter.py`).

The embedding models strings as `List Char` (one Python `str` character per
list element).  The inline tokenizer `_parse_inline_formatting` is driven by
the Python regex `(\*\*.*?\*\*|\*.*?\*)` evaluated with `re.finditer`:
matches are found left to right, at each position the bold alternative is
tried before the italic one, `.*?` is lazy (shortest span first) and `.`
does not match a newline.  The scanner below reproduces exactly that
semantics; a fuel argument (always instantiated with the length of the
input, which strictly bounds the number of scanning steps) makes the
recursion structural so that all definitions compute by kernel reduction.
-/

namespace MvpConverter

/-- A formatted text run, mirroring the dicts built by
`_parse_inline_formatting`: `{'text': ..., 'bold': ..., 'italic': ...}`. -/
structure Run where
  text : List Char
  bold : Bool
  italic : Bool
  deriving DecidableEq

/-- Lazy search performed by `.*?\*` inside the italic alternative
`\*.*?\*`: walk right looking for the first closing `*`; the dot cannot
cross a newline.  Returns the characters consumed by `.*?` and the
characters after the closing star. -/
def findB : List Char → Option (List Char × List Char)
  | [] => none
  | c :: rest =>
    if c = '*' then some ([], rest)
    else if c = '\n' then none
    else (findB rest).map (fun pr => (c :: pr.1, pr.2))

/-- Lazy search performed by `.*?\*\*` inside the bold alternative
`\*\*.*?\*\*`: walk right looking for the first closing `**`; the dot
cannot cross a newline. -/
def findBB : List Char → Option (List Char × List Char)
  | [] => none
  | c :: rest =>
    if c = '*' ∧ rest.head? = some '*' then some ([], rest.tail)
    else if c = '\n' then none
    else (findBB rest).map (fun pr => (c :: pr.1, pr.2))

/-- The italic alternative `\*.*?\*` of the regex, attempted at a position
whose first character is `*`; `rest` is the text after that star.  Returns
the full matched text and the text after the match. -/
def alt2 (rest : List Char) : Option (List Char × List Char) :=
  match findB rest with
  | some (inner, after) => some ('*' :: (inner ++ ['*']), after)
  | none => none

/-- One attempt of the regex `(\*\*.*?\*\*|\*.*?\*)` at a fixed position:
the bold alternative is tried first, then the italic one (Python tries
alternatives left to right).  Returns `(matched_text, text after match)`. -/
def matchAt (s : List Char) : Option (List Char × List Char) :=
  match s with
  | [] => none
  | c :: rest =>
    if c = '*' then
      if rest.head? = some '*' then
        match findBB rest.tail with
        | some (inner, after) => some ('*' :: '*' :: (inner ++ ['*', '*']), after)
        | none => alt2 rest
      else alt2 rest
    else none

/-- The run appended for the text between two matches (or before the first
match / after the last one); the Python code only appends it when the slice
is non-empty. -/
def mkPending (pending : List Char) : List Run :=
  if pending = [] then [] else [⟨pending, false, false⟩]

/-- Classification of one regex match, mirroring the Python branch
`if matched_text.startswith('**') and matched_text.endswith('**')` (bold,
text `matched_text[2:-2]`) / `elif startswith('*') and endswith('*')`
(italic, text `matched_text[1:-1]`); any other match adds no run. -/
def matchRun (m : List Char) : List Run :=
  if m.take 2 = ['*', '*'] ∧ m.reverse.take 2 = ['*', '*'] then
    [⟨((m.drop 2).dropLast).dropLast, true, false⟩]
  else if m.take 1 = ['*'] ∧ m.reverse.take 1 = ['*'] then
    [⟨(m.drop 1).dropLast, false, true⟩]
  else []

/-- The matched text with its marker delimiters removed: two stars from
each side of a bold match, one star from each side of an italic match. -/
def matchInner (m : List Char) : List Char :=
  if m.take 2 = ['*', '*'] then ((m.drop 2).dropLast).dropLast
  else (m.drop 1).dropLast

/-- The `re.finditer` loop of `_parse_inline_formatting`: `pending` is the
text between `current_pos` and the position currently being tried. -/
def scanRuns : Nat → List Char → List Char → List Run
  | _, pending, [] => mkPending pending
  | 0, pending, s => mkPending (pending ++ s)
  | fuel + 1, pending, c :: rest =>
    match matchAt (c :: rest) with
    | some (m, after) => mkPending pending ++ matchRun m ++ scanRuns fuel [] after
    | none => scanRuns fuel (pending ++ [c]) rest

/-- `_parse_inline_formatting` (mvp_converter.py, lines 258-316): scan the
line for `**bold**` / `*italic*` matches; if no run was produced at all
(`if not runs`), fall back to a single plain run holding the whole text. -/
def parse_inline_formatting (text : List Char) : List Run :=
  if scanRuns text.length [] text = [] then [⟨text, false, false⟩]
  else scanRuns text.length [] text

/-- Concatenation of the `text` fields of a run list. -/
def runsText (runs : List Run) : List Char :=
  (runs.map Run.text).flatten

/-- The input with the delimiters of every regex match removed and all
other characters kept: the reference "line with marker delimiters removed"
against which the tokenizer output is compared. -/
def stripScan : Nat → List Char → List Char
  | _, [] => []
  | 0, s => s
  | fuel + 1, c :: rest =>
    match matchAt (c :: rest) with
    | some (m, after) => matchInner m ++ stripScan fuel after
    | none => c :: stripScan fuel rest

/-- Entry point of `stripScan` with enough fuel for the whole line. -/
def stripDelims (s : List Char) : List Char :=
  stripScan s.length s

/-- Paragraph alignment recorded by `parse_formatting`
(`'left'` / `'center'` / `'right'`). -/
inductive Alignment where
  | left
  | center
  | right
  deriving DecidableEq

/-- One element of the `blocks` list built by `parse_formatting`: either a
`{'type': 'paragraph_break'}` dict or a text dict carrying
`heading_level`, `alignment` and `runs`.  The `'type'` value of a text
dict is derived from the level (see `blockType`). -/
inductive Block where
  | paragraphBreak
  | textBlock (heading_level : Nat) (alignment : Alignment) (runs : List Run)
  deriving DecidableEq

/-- The `'type'` field stored in each block dict:
`'heading' if heading_level > 0 else 'paragraph'`, and
`'paragraph_break'` for blank lines. -/
def blockType : Block → List Char
  | .paragraphBreak => "paragraph_break".data
  | .textBlock lvl _ _ => if 0 < lvl then "heading".data else "paragraph".data

/-- The character class stripped by Python `str.strip()` (ASCII whitespace;
the inputs of interest contain no other Unicode space characters). -/
def isSpaceChar (c : Char) : Bool :=
  c == ' ' || c == '\t' || c == '\n' || c == '\r' || c == '\x0B' || c == '\x0C'

/-- Python `str.strip()`: drop whitespace from both ends. -/
def stripChars (s : List Char) : List Char :=
  ((s.dropWhile isSpaceChar).reverse.dropWhile isSpaceChar).reverse

/-- Python `str.replace(pat, '')` with the fuel needed made explicit:
delete every non-overlapping occurrence of `pat`, scanning left to right. -/
def removeAllFuel : Nat → List Char → List Char → List Char
  | _, _, [] => []
  | 0, _, s => s
  | fuel + 1, pat, c :: rest =>
    if pat ≠ [] ∧ (c :: rest).take pat.length = pat then
      removeAllFuel fuel pat ((c :: rest).drop pat.length)
    else
      c :: removeAllFuel fuel pat rest

/-- Python `s.replace(pat, '')`. -/
def removeAll (pat s : List Char) : List Char :=
  removeAllFuel s.length pat s

/-- Python `s.startswith(pat)`. -/
def beginsWith (pat s : List Char) : Bool :=
  decide (s.take pat.length = pat)

def centerTag : List Char := "[CENTER]".data

def rightTag : List Char := "[RIGHT]".data

def hash3 : List Char := "###".data

def hash2 : List Char := "##".data

def hash1 : List Char := "#".data

/-- The alignment stage of `parse_formatting` (lines 224-231): on a
`[CENTER]`/`[RIGHT]` line start, record the alignment and apply
`line.replace(tag, '').strip()`. -/
def detectAlignment (line : List Char) : Alignment × List Char :=
  if beginsWith centerTag line then (Alignment.center, stripChars (removeAll centerTag line))
  else if beginsWith rightTag line then (Alignment.right, stripChars (removeAll rightTag line))
  else (Alignment.left, line)

/-- The heading stage of `parse_formatting` (lines 233-243): test `###`,
then `##`, then `#`; on a match record the level and apply
`line.replace(marker, '').strip()`. -/
def detectHeading (line : List Char) : Nat × List Char :=
  if beginsWith hash3 line then (3, stripChars (removeAll hash3 line))
  else if beginsWith hash2 line then (2, stripChars (removeAll hash2 line))
  else if beginsWith hash1 line then (1, stripChars (removeAll hash1 line))
  else (0, line)

/-- The per-line body of the `parse_formatting` loop: blank line (after
strip) gives a paragraph break; otherwise alignment stage, heading stage,
inline tokenizer. -/
def classifyLine (line : List Char) : Block :=
  if stripChars line = [] then Block.paragraphBreak
  else
    let al := detectAlignment line
    let hd := detectHeading al.2
    Block.textBlock hd.1 al.1 (parse_inline_formatting hd.2)

/-- Python `formatted_text.split('\n')`. -/
def splitNl : List Char → List (List Char)
  | [] => [[]]
  | c :: rest =>
    if c = '\n' then [] :: splitNl rest
    else
      match splitNl rest with
      | [] => [[c]]
      | l :: ls => (c :: l) :: ls

/-- The accumulator loop of `parse_formatting`: one `blocks.append` per
line. -/
def parseLoop (acc : List Block) : List (List Char) → List Block
  | [] => acc
  | line :: rest => parseLoop (acc ++ [classifyLine line]) rest

/-- `parse_formatting` (mvp_converter.py, lines 196-256). -/
def parse_formatting (formatted_text : List Char) : List Block :=
  parseLoop [] (splitNl formatted_text)

/-- Result of `extract_formatted_text`: a `{'text': ..., 'error': ...}`
dict; `error` is `None` on success. -/
structure OcrResult where
  text : List Char
  error : Option (List Char)

/-- The collaborators of `convert`, abstracted: whether `cv2.imread` can
decode the input image (otherwise `preprocess_image` raises `ValueError`),
what the OCR call returns (`extract_formatted_text` catches its own
exceptions and returns an error dict instead of raising), and the outcome
of `generate_word_document` (which also catches internally and returns a
Bool). -/
structure ConvEnv where
  imageReadable : Bool
  ocr : OcrResult
  docgen : List Block → Bool

/-- The dict returned by `convert`: `success`, `message`, and
`output_path` (present only on success). -/
structure ConversionResult where
  success : Bool
  message : List Char
  outputPath : Option (List Char)
  deriving DecidableEq

/-- Observable side effects of one `convert` run: whether the preprocessed
temp image was written (`cv2.imwrite` in `preprocess_image`), whether it
still exists when `convert` returns (`os.remove` at lines 418-420 runs
only after OCR and parsing succeeded), whether `parse_formatting` /
`generate_word_document` were invoked, and whether the output document was
saved. -/
structure ConvTrace where
  tempCreated : Bool
  tempExistsAtReturn : Bool
  parseInvoked : Bool
  docgenInvoked : Bool
  outputCreated : Bool
  deriving DecidableEq

/-- Python truthiness of the `result` error field as tested by
`if result` at line 406 of `convert`: `None` and the empty string are
falsy, any non-empty string is truthy. -/
def truthyError : Option (List Char) → Bool
  | none => false
  | some [] => false
  | some (_ :: _) => true

/-- `convert` (mvp_converter.py, lines 384-439).  When the image is
unreadable, `preprocess_image` raises before `cv2.imwrite`, the exception
is caught by the surrounding `try` and reported with the `ValueError`
message.  When the OCR error field is truthy (a non-empty string - the
code tests it with a bare `if`, so an empty-string error is falsy and
falls through), `convert` returns the `OCR failed:` result immediately -
before the cleanup statement - so the temp image is still on disk.
Otherwise parsing and document generation run, the temp image is removed,
and success mirrors the `generate_word_document` outcome.  In the truthy
branch the error is some non-empty `e`, so `Option.getD` reproduces the
interpolated message exactly. -/
def convert (imagePath outputPath : List Char) (env : ConvEnv) :
    ConversionResult × ConvTrace :=
  if env.imageReadable then
    if truthyError env.ocr.error then
      (⟨false, "OCR failed: ".data ++ env.ocr.error.getD [], none⟩,
       ⟨true, true, false, false, false⟩)
    else
      let blocks := parse_formatting env.ocr.text
      if env.docgen blocks then
        (⟨true, "Conversion completed successfully!".data, some outputPath⟩,
         ⟨true, false, true, true, true⟩)
      else
        (⟨false, "Failed to generate Word document".data, none⟩,
         ⟨true, false, true, true, false⟩)
  else
    (⟨false, "Could not read image: ".data ++ imagePath, none⟩,
     ⟨false, false, false, false, false⟩)

/-- Dropping the last two elements of a list ending in two known
elements. -/
theorem dropLast_two (l : List Char) (c d : Char) :
    ((l ++ [c, d]).dropLast).dropLast = l := by
  rw [show l ++ [c, d] = (l ++ [c]) ++ [d] by simp, List.dropLast_concat,
    List.dropLast_concat]

/-- The first element of the reversal of a list ending in a known
element. -/
theorem reverse_take_one (l : List Char) (c : Char) :
    ((l ++ [c]).reverse).take 1 = [c] := by
  simp

/-- The first two elements of the reversal of a list ending in two known
elements. -/
theorem reverse_take_two (l : List Char) (c d : Char) :
    ((l ++ [c, d]).reverse).take 2 = [d, c] := by
  rw [show l ++ [c, d] = (l ++ [c]) ++ [d] by simp]
  simp

/-- Decomposition produced by a successful `findB` search: the consumed
characters, the closing star, the rest; no star occurs before the
closing one. -/
theorem findB_spec {s i a : List Char} (h : findB s = some (i, a)) :
    s = i ++ '*' :: a ∧ '*' ∉ i := by
  induction s generalizing i a with
  | nil => simp [findB] at h
  | cons c rest ih =>
    simp only [findB] at h
    by_cases hc : c = '*'
    · simp only [if_pos hc, Option.some.injEq, Prod.mk.injEq] at h
      obtain ⟨h1, h2⟩ := h
      subst h1; subst h2; simp [hc]
    · by_cases hn : c = '\n'
      · simp [hc, hn] at h
      · simp only [if_neg hc, if_neg hn] at h
        cases hr : findB rest with
        | none => rw [hr] at h; simp at h
        | some pr =>
          obtain ⟨p, r⟩ := pr
          rw [hr] at h
          simp only [Option.map_some', Option.some.injEq, Prod.mk.injEq] at h
          obtain ⟨h1, h2⟩ := h
          obtain ⟨hs, hmem⟩ := ih hr
          subst h1; subst h2
          constructor
          · simp [hs]
          · simp [hmem]
            intro hcc
            exact hc hcc.symm

/-- Decomposition produced by a successful `findBB` search. -/
theorem findBB_spec {s i a : List Char} (h : findBB s = some (i, a)) :
    s = i ++ '*' :: '*' :: a := by
  induction s generalizing i a with
  | nil => simp [findBB] at h
  | cons c rest ih =>
    simp only [findBB] at h
    by_cases hc : c = '*' ∧ rest.head? = some '*'
    · simp only [if_pos hc, Option.some.injEq, Prod.mk.injEq] at h
      obtain ⟨h1, h2⟩ := h
      subst h1; subst h2
      obtain ⟨hc1, hc2⟩ := hc
      cases rest with
      | nil => simp at hc2
      | cons r rs =>
        simp at hc2
        subst hc1; subst hc2
        simp
    · by_cases hn : c = '\n'
      · simp [hc, hn] at h
      · simp only [if_neg hc, if_neg hn] at h
        cases hr : findBB rest with
        | none => rw [hr] at h; simp at h
        | some pr =>
          obtain ⟨p, r⟩ := pr
          rw [hr] at h
          simp only [Option.map_some', Option.some.injEq, Prod.mk.injEq] at h
          obtain ⟨h1, h2⟩ := h
          subst h1; subst h2
          simp [ih hr]

/-- Evaluation of the Python classification branch on an italic match whose
inner text is non-empty and starts with a non-star character (the shape
every italic match with non-empty inner text has). -/
theorem matchRun_italic (inner : List Char) (d : Char) (ds : List Char)
    (hds : inner = d :: ds) (hd : d ≠ '*') :
    matchRun ('*' :: (inner ++ ['*'])) = [⟨inner, false, true⟩] ∧
    matchInner ('*' :: (inner ++ ['*'])) = inner := by
  subst hds
  have htake2 : ('*' :: (d :: ds ++ ['*'])).take 2 = ['*', d] := by simp
  have htake1 : ('*' :: (d :: ds ++ ['*'])).take 1 = ['*'] := by simp
  have hrev : (('*' :: (d :: ds ++ ['*'])).reverse).take 1 = ['*'] := by
    rw [show ('*' :: (d :: ds ++ ['*'])) = ('*' :: d :: ds) ++ ['*'] from rfl]
    exact reverse_take_one _ _
  have hdrop : (('*' :: (d :: ds ++ ['*'])).drop 1).dropLast = d :: ds := by
    rw [show (('*' :: (d :: ds ++ ['*'])).drop 1) = (d :: ds) ++ ['*'] from rfl,
      List.dropLast_concat]
  have hcond2 : ¬(('*' :: (d :: ds ++ ['*'])).take 2 = ['*', '*']) := by
    rw [htake2]
    simp [hd]
  constructor
  · unfold matchRun
    rw [if_neg (fun hcon => hcond2 hcon.1), if_pos ⟨htake1, hrev⟩, hdrop]
  · unfold matchInner
    rw [if_neg hcond2, hdrop]

/-- Evaluation of the Python classification branch on a full bold match. -/
theorem matchRun_bold (inner : List Char) :
    matchRun ('*' :: '*' :: (inner ++ ['*', '*'])) = [⟨inner, true, false⟩] ∧
    matchInner ('*' :: '*' :: (inner ++ ['*', '*'])) = inner := by
  have htake2 : ('*' :: '*' :: (inner ++ ['*', '*'])).take 2 = ['*', '*'] := by simp
  have hrev : (('*' :: '*' :: (inner ++ ['*', '*'])).reverse).take 2 = ['*', '*'] := by
    rw [show ('*' :: '*' :: (inner ++ ['*', '*'])) = ('*' :: '*' :: inner) ++ ['*', '*']
      from rfl]
    exact reverse_take_two _ _ _
  have hdrop : ((('*' :: '*' :: (inner ++ ['*', '*'])).drop 2).dropLast).dropLast = inner := by
    rw [show (('*' :: '*' :: (inner ++ ['*', '*'])).drop 2) = inner ++ ['*', '*'] from rfl]
    exact dropLast_two _ _ _
  constructor
  · unfold matchRun
    rw [if_pos ⟨htake2, hrev⟩, hdrop]
  · unfold matchInner
    rw [if_pos htake2, hdrop]

/-- What one successful regex match guarantees: the position decomposes as
match plus remainder, the Python classification branch turns the match into
exactly one run whose text is the match stripped of its delimiters, never
bold and italic at once; the stripped text sits inside the match and keeps
every non-star character. -/
def goodMatch (s m a : List Char) : Prop :=
  s = m ++ a ∧
  (∃ b i : Bool, matchRun m = [⟨matchInner m, b, i⟩] ∧ (b = false ∨ i = false)) ∧
  (matchInner m).Sublist m ∧
  ∀ c : Char, c ≠ '*' → (matchInner m).count c = m.count c

/-- The italic alternative always yields a good match. -/
theorem alt2_spec {rest m a : List Char} (h : alt2 rest = some (m, a)) :
    goodMatch ('*' :: rest) m a := by
  unfold alt2 at h
  cases hf : findB rest with
  | none => rw [hf] at h; simp at h
  | some pr =>
    obtain ⟨inner, after⟩ := pr
    rw [hf] at h
    simp only [Option.some.injEq, Prod.mk.injEq] at h
    obtain ⟨hm, ha⟩ := h
    obtain ⟨hrest, hstar⟩ := findB_spec hf
    subst hm; subst ha; subst hrest
    by_cases hin : inner = []
    · subst hin
      refine ⟨by simp, ⟨true, false, by decide, Or.inr rfl⟩, by decide, ?_⟩
      intro c hc
      have he : matchInner ('*' :: (([] : List Char) ++ ['*'])) = [] := by decide
      rw [he]
      simp [List.count_cons, Ne.symm hc]
    · obtain ⟨d, ds, hds⟩ := List.exists_cons_of_ne_nil hin
      have hd : d ≠ '*' := by
        intro hcon
        exact hstar (by simp [hds, hcon])
      obtain ⟨hrun, hinner⟩ := matchRun_italic inner d ds hds hd
      refine ⟨by simp, ⟨false, true, by rw [hrun, hinner], Or.inl rfl⟩, ?_, ?_⟩
      · rw [hinner]
        exact List.Sublist.cons _ (List.sublist_append_left _ _)
      · intro c hc
        rw [hinner]
        simp [List.count_cons, List.count_append, Ne.symm hc]

/-- Every successful regex match attempt is a good match. -/
theorem matchAt_spec {s m a : List Char} (h : matchAt s = some (m, a)) :
    goodMatch s m a := by
  cases s with
  | nil => simp [matchAt] at h
  | cons c rest =>
    simp only [matchAt] at h
    by_cases hc : c = '*'
    · rw [if_pos hc] at h
      subst hc
      by_cases hh : rest.head? = some '*'
      · rw [if_pos hh] at h
        cases hbb : findBB rest.tail with
        | none =>
          rw [hbb] at h
          exact alt2_spec h
        | some pr =>
          obtain ⟨inner, after⟩ := pr
          rw [hbb] at h
          simp only [Option.some.injEq, Prod.mk.injEq] at h
          obtain ⟨hm, ha⟩ := h
          have htl : rest = '*' :: rest.tail := by
            cases rest with
            | nil => simp at hh
            | cons r rs => simp at hh; rw [hh]; rfl
          have hdec := findBB_spec hbb
          obtain ⟨hrun, hinner⟩ := matchRun_bold inner
          subst hm; subst ha
          refine ⟨?_, ⟨true, false, by rw [hrun, hinner], Or.inr rfl⟩, ?_, ?_⟩
          · rw [htl, hdec]
            simp
          · rw [hinner]
            exact List.Sublist.cons _ (List.Sublist.cons _ (List.sublist_append_left _ _))
          · intro ch hch
            rw [hinner]
            simp [List.count_cons, List.count_append, Ne.symm hch]
      · rw [if_neg hh] at h
        exact alt2_spec h
    · rw [if_neg hc] at h
      simp at h

theorem runsText_append (r1 r2 : List Run) :
    runsText (r1 ++ r2) = runsText r1 ++ runsText r2 := by
  simp [runsText]

theorem runsText_mkPending (p : List Char) : runsText (mkPending p) = p := by
  unfold mkPending
  split
  · simp [runsText, *]
  · simp [runsText]

/-- The run list produced by the scanner concatenates, after the pending
text, to exactly the input with matched delimiters removed. -/
theorem scanRuns_strip (fuel : Nat) :
    ∀ pending s : List Char,
      runsText (scanRuns fuel pending s) = pending ++ stripScan fuel s := by
  induction fuel with
  | zero =>
    intro pending s
    cases s with
    | nil => simp [scanRuns, stripScan, runsText_mkPending]
    | cons c rest => simp [scanRuns, stripScan, runsText_mkPending]
  | succ fuel ih =>
    intro pending s
    cases s with
    | nil => simp [scanRuns, stripScan, runsText_mkPending]
    | cons c rest =>
      cases hm : matchAt (c :: rest) with
      | none =>
        simp only [scanRuns, stripScan, hm, ih]
        simp
      | some pr =>
        obtain ⟨m, after⟩ := pr
        obtain ⟨-, ⟨b, i, hrun, -⟩, -, -⟩ := matchAt_spec hm
        simp only [scanRuns, stripScan, hm, runsText_append, runsText_mkPending,
          hrun, ih]
        simp [runsText]

/-- Removing the matched delimiters leaves a sublist of the input. -/
theorem stripScan_sublist (fuel : Nat) :
    ∀ s : List Char, (stripScan fuel s).Sublist s := by
  induction fuel with
  | zero =>
    intro s
    cases s with
    | nil => simp [stripScan]
    | cons c rest => simp [stripScan]
  | succ fuel ih =>
    intro s
    cases s with
    | nil => simp [stripScan]
    | cons c rest =>
      cases hm : matchAt (c :: rest) with
      | none =>
        simp only [stripScan, hm]
        exact List.Sublist.cons₂ _ (ih rest)
      | some pr =>
        obtain ⟨m, after⟩ := pr
        obtain ⟨hs, -, hsub, -⟩ := matchAt_spec hm
        simp only [stripScan, hm]
        rw [hs]
        exact List.Sublist.append hsub (ih after)

/-- Removing the matched delimiters removes only star characters. -/
theorem stripScan_count (fuel : Nat) :
    ∀ (s : List Char) (c : Char), c ≠ '*' →
      (stripScan fuel s).count c = s.count c := by
  induction fuel with
  | zero =>
    intro s c _
    cases s with
    | nil => simp [stripScan]
    | cons d rest => simp [stripScan]
  | succ fuel ih =>
    intro s c hc
    cases s with
    | nil => simp [stripScan]
    | cons d rest =>
      cases hm : matchAt (d :: rest) with
      | none =>
        simp only [stripScan, hm]
        simp [List.count_cons, ih rest c hc]
      | some pr =>
        obtain ⟨m, after⟩ := pr
        obtain ⟨hs, -, -, hcount⟩ := matchAt_spec hm
        simp only [stripScan, hm]
        rw [hs]
        simp [List.count_append, hcount c hc, ih after c hc]

/-- The scanner returns at least one run whenever there is any text. -/
theorem scanRuns_ne_nil (fuel : Nat) :
    ∀ pending s : List Char, pending ++ s ≠ [] → scanRuns fuel pending s ≠ [] := by
  induction fuel with
  | zero =>
    intro pending s hne
    cases s with
    | nil =>
      simp at hne
      simp [scanRuns, mkPending, hne]
    | cons c rest =>
      simp [scanRuns, mkPending]
  | succ fuel ih =>
    intro pending s hne
    cases s with
    | nil =>
      simp at hne
      simp [scanRuns, mkPending, hne]
    | cons c rest =>
      cases hm : matchAt (c :: rest) with
      | none =>
        simp only [scanRuns, hm]
        exact ih (pending ++ [c]) rest (by simp)
      | some pr =>
        obtain ⟨m, after⟩ := pr
        obtain ⟨-, ⟨b, i, hrun, -⟩, -, -⟩ := matchAt_spec hm
        simp only [scanRuns, hm]
        simp [hrun]

/-- A run taken from `mkPending p` is the plain run on `p`. -/
theorem mem_mkPending {p : List Char} {r : Run} (h : r ∈ mkPending p) :
    r = ⟨p, false, false⟩ := by
  unfold mkPending at h
  split at h
  · simp at h
  · simp at h
    exact h

/-- Every run emitted by the scanner is plain, bold-only or italic-only. -/
theorem scanRuns_wf (fuel : Nat) :
    ∀ (pending s : List Char) (r : Run), r ∈ scanRuns fuel pending s →
      r.bold = false ∨ r.italic = false := by
  induction fuel with
  | zero =>
    intro pending s r hr
    cases s with
    | nil =>
      rw [mem_mkPending hr]
      exact Or.inl rfl
    | cons c rest =>
      rw [mem_mkPending hr]
      exact Or.inl rfl
  | succ fuel ih =>
    intro pending s r hr
    cases s with
    | nil =>
      rw [mem_mkPending hr]
      exact Or.inl rfl
    | cons c rest =>
      cases hm : matchAt (c :: rest) with
      | none =>
        simp only [scanRuns, hm] at hr
        exact ih (pending ++ [c]) rest r hr
      | some pr =>
        obtain ⟨m, after⟩ := pr
        obtain ⟨-, ⟨b, i, hrun, hbi⟩, -, -⟩ := matchAt_spec hm
        simp only [scanRuns, hm, hrun] at hr
        rcases List.mem_append.mp hr with hr1 | hr2
        · rcases List.mem_append.mp hr1 with hp | hm1
          · rw [mem_mkPending hp]
            exact Or.inl rfl
          · simp at hm1
            rw [hm1]
            exact hbi
        · exact ih [] after r hr2

/-- A lazy closing-star search fails when there is no star at all. -/
theorem findB_none_of_no_star {l : List Char} (h : '*' ∉ l) : findB l = none := by
  induction l with
  | nil => rfl
  | cons c rest ih =>
    simp at h
    obtain ⟨hc, hrest⟩ := h
    simp only [findB]
    rw [if_neg (by exact fun hcc => hc hcc.symm)]
    by_cases hn : c = '\n'
    · rw [if_pos hn]
    · rw [if_neg hn, ih hrest]
      rfl

/-- No regex alternative can match at a position when at most one star
is in sight. -/
theorem matchAt_none_of_single {c : Char} {rest : List Char}
    (h : (c :: rest).count '*' ≤ 1) : matchAt (c :: rest) = none := by
  simp only [matchAt]
  by_cases hc : c = '*'
  · rw [if_pos hc]
    have hrest : '*' ∉ rest := by
      rw [List.count_cons] at h
      simp [hc] at h
      exact List.count_eq_zero.mp (by omega)
    have hhead : ¬rest.head? = some '*' := by
      intro hcon
      cases rest with
      | nil => simp at hcon
      | cons r rs =>
        simp at hcon
        exact hrest (by simp [hcon])
    rw [if_neg hhead]
    unfold alt2
    rw [findB_none_of_no_star hrest]
  · rw [if_neg hc]

/-- When a line holds at most one star the scanner consumes it literally. -/
theorem scanRuns_single (fuel : Nat) :
    ∀ pending s : List Char, s.count '*' ≤ 1 →
      scanRuns fuel pending s = mkPending (pending ++ s) := by
  induction fuel with
  | zero =>
    intro pending s _
    cases s with
    | nil => simp [scanRuns]
    | cons c rest => rfl
  | succ fuel ih =>
    intro pending s hcount
    cases s with
    | nil => simp [scanRuns]
    | cons c rest =>
      have hm : matchAt (c :: rest) = none := matchAt_none_of_single hcount
      have hrest : rest.count '*' ≤ 1 := by
        rw [List.count_cons] at hcount
        omega
      simp only [scanRuns, hm]
      rw [ih (pending ++ [c]) rest hrest]
      simp

/-- Every run of the tokenizer output is plain, bold-only or
italic-only. -/
theorem parse_inline_wf (t : List Char) (r : Run)
    (hr : r ∈ parse_inline_formatting t) :
    r.bold = false ∨ r.italic = false := by
  unfold parse_inline_formatting at hr
  split at hr
  · simp at hr
    rw [hr]
    exact Or.inl rfl
  · exact scanRuns_wf t.length [] t r hr

/-- The tokenizer never returns an empty run list. -/
theorem parse_inline_ne_nil (t : List Char) : parse_inline_formatting t ≠ [] := by
  unfold parse_inline_formatting
  split
  · simp
  · assumption

/-- The accumulator loop of `parse_formatting` is a map over the lines. -/
theorem parseLoop_eq (l : List (List Char)) :
    ∀ acc : List Block, parseLoop acc l = acc ++ l.map classifyLine := by
  induction l with
  | nil => intro acc; simp [parseLoop]
  | cons line rest ih =>
    intro acc
    rw [parseLoop, ih]
    simp

/-- A line that does not start with `#` does not start with `##`. -/
theorem beginsWith_hash2_false {line : List Char}
    (h : beginsWith hash1 line = false) : beginsWith hash2 line = false := by
  cases line with
  | nil => rfl
  | cons c rest =>
    simp [beginsWith, hash1, hash2] at h ⊢
    intro hc
    exact absurd hc h

/-- A line that does not start with `#` does not start with `###`. -/
theorem beginsWith_hash3_false {line : List Char}
    (h : beginsWith hash1 line = false) : beginsWith hash3 line = false := by
  cases line with
  | nil => rfl
  | cons c rest =>
    simp [beginsWith, hash1, hash3] at h ⊢
    intro hc
    exact absurd hc h

/-- The heading stage records only levels 0 to 3. -/
theorem detectHeading_le (line : List Char) : (detectHeading line).1 ≤ 3 := by
  unfold detectHeading
  split
  · simp
  · split
    · simp
    · split
      · simp
      · simp

/-- Well-formedness of a run: the two style flags are never both set. -/
def wfRun (r : Run) : Prop := r.bold = false ∨ r.italic = false

/-- Well-formedness of a block: a break carries nothing; a text block has
heading level at most 3 and a non-empty list of well-formed runs. -/
def wfBlock : Block → Prop
  | .paragraphBreak => True
  | .textBlock lvl _ runs => lvl ≤ 3 ∧ runs ≠ [] ∧ ∀ r ∈ runs, wfRun r

/-- Every block the per-line classifier can produce is well-formed. -/
theorem classifyLine_wf (line : List Char) : wfBlock (classifyLine line) := by
  unfold classifyLine
  split
  · trivial
  · refine ⟨detectHeading_le _, parse_inline_ne_nil _, ?_⟩
    intro r hr
    exact parse_inline_wf _ r hr

/-- Claim C1 is false as stated: on the line `*x *y*` the opening star
before `x` has no closing counterpart of its own, yet the tokenizer pairs
it with the first star of the later, independent pair `*y*`, producing the
italic run `x ` (and leaving `y*` as plain text) instead of treating the
unmatched star as literal text. -/
theorem C1_counterexample :
    parse_inline_formatting ("*x *y*".data) =
      [⟨"x ".data, false, true⟩, ⟨"y*".data, false, false⟩] ∧
    (parse_inline_formatting ("*x *y*".data)).any (fun r => r.italic) = true := by
  decide

/-- Claim C1, amended: an opening `*`/`**` is kept as literal plain text
only when no further star follows on the line - in particular any line
containing at most one star tokenizes to the single plain run holding the
whole line, so `Price: *$5 (no closing` yields no italic run.  When a
later star does exist, the unmatched opening star pairs with the next
star on the line, even one belonging to a later, independent marker pair:
`*x *y*` tokenizes to an italic run `x ` followed by plain `y*`. -/
theorem C1_unterminated_literal :
    (∀ s : List Char, s.count '*' ≤ 1 →
        parse_inline_formatting s = [⟨s, false, false⟩]) ∧
    parse_inline_formatting ("*x *y*".data) =
      [⟨"x ".data, false, true⟩, ⟨"y*".data, false, false⟩] := by
  constructor
  · intro s hs
    unfold parse_inline_formatting
    rw [scanRuns_single s.length [] s hs]
    by_cases hnil : s = [] <;> simp [mkPending, hnil]
  · decide

/-- Claim C1, witness: the unterminated-marker line of the specification
tokenizes to one plain run. -/
theorem C1_witness :
    parse_inline_formatting ("Price: *$5 (no closing".data) =
      [⟨"Price: *$5 (no closing".data, false, false⟩] :=
  C1_unterminated_literal.1 _ (by decide)

/-- Claim C4: concatenating the text fields of all runs returned by the
inline tokenizer, in order and ignoring style flags, equals the input line
with the delimiters of the matched bold/italic pairs removed
(`stripDelims`); that result is a sublist of the input (no character is
reordered or duplicated) and keeps every non-star character of the input
(only marker stars are removed). -/
theorem C4_concat_reconstruction (s : List Char) :
    runsText (parse_inline_formatting s) = stripDelims s ∧
    (stripDelims s).Sublist s ∧
    ∀ c : Char, c ≠ '*' → (stripDelims s).count c = s.count c := by
  refine ⟨?_, stripScan_sublist s.length s, fun c hc => stripScan_count s.length s c hc⟩
  unfold parse_inline_formatting stripDelims
  by_cases h : scanRuns s.length [] s = []
  · rw [if_pos h]
    have hs : s = [] := by
      by_contra hne
      exact scanRuns_ne_nil s.length [] s (by simp [hne]) h
    subst hs
    simp [runsText, stripScan]
  · rw [if_neg h, scanRuns_strip]
    simp

/-- Claim C4, witness: evaluation of the reconstruction property on the
formatted line of the round-trip scenario. -/
theorem C4_witness :
    runsText (parse_inline_formatting ("This is *important* and **urgent**.".data)) =
      stripDelims ("This is *important* and **urgent**.".data) ∧
    (stripDelims ("This is *important* and **urgent**.".data)).count 'i' =
      ("This is *important* and **urgent**.".data).count 'i' :=
  ⟨(C4_concat_reconstruction _).1, (C4_concat_reconstruction _).2.2 'i' (by decide)⟩

/-- Claim C10: no run produced by the inline tokenizer has both style
flags set - plain text, the pending/tail slices and both match branches
only ever build plain, bold-only or italic-only runs, so nested markup can
never yield a combined bold-italic run. -/
theorem C10_no_bold_italic (s : List Char) (r : Run)
    (hr : r ∈ parse_inline_formatting s) :
    ¬(r.bold = true ∧ r.italic = true) := by
  rintro ⟨hb, hi⟩
  rcases parse_inline_wf s r hr with h | h
  · rw [h] at hb
    exact Bool.false_ne_true hb
  · rw [h] at hi
    exact Bool.false_ne_true hi

/-- Claim C10, witness: the single run produced for the nested-markup line
of the claim is bold-only. -/
theorem C10_witness :
    ¬((⟨"bold *and italic* text".data, true, false⟩ : Run).bold = true ∧
      (⟨"bold *and italic* text".data, true, false⟩ : Run).italic = true) :=
  C10_no_bold_italic ("**bold *and italic* text**".data) _ (by decide)

/-- Claim C3 is false as stated: the classification stages strip with
Python `str.replace`, which deletes every occurrence of the matched marker
string, not only the prefix.  On `# A #1` the heading stage deletes the
interior `#` as well (runs text `A 1`, not `A #1`), and on
`[CENTER]a [CENTER]b` the alignment stage deletes the interior `[CENTER]`
tag as well. -/
theorem C3_counterexample :
    classifyLine ("# A #1".data) =
      Block.textBlock 1 Alignment.left [⟨"A 1".data, false, false⟩] ∧
    classifyLine ("# A #1".data) ≠
      Block.textBlock 1 Alignment.left [⟨"A #1".data, false, false⟩] ∧
    classifyLine ("[CENTER]a [CENTER]b".data) =
      Block.textBlock 0 Alignment.center [⟨"a b".data, false, false⟩] := by
  decide

/-- Claim C3, amended: each stage triggers only when its marker occurs as
the line's prefix - a line starting with none of the markers is passed to
the tokenizer verbatim - but on a match the stage removes every occurrence
of the matched marker string from the whole line, so interior occurrences
of that marker are deleted too rather than surviving as literal text. -/
theorem C3_prefix_stages :
    (∀ line : List Char,
        stripChars line ≠ [] →
        beginsWith centerTag line = false →
        beginsWith rightTag line = false →
        beginsWith hash1 line = false →
        classifyLine line =
          Block.textBlock 0 Alignment.left (parse_inline_formatting line)) ∧
    classifyLine ("# A #1".data) =
      Block.textBlock 1 Alignment.left [⟨"A 1".data, false, false⟩] ∧
    classifyLine ("[CENTER]a [CENTER]b".data) =
      Block.textBlock 0 Alignment.center [⟨"a b".data, false, false⟩] := by
  refine ⟨?_, by decide, by decide⟩
  intro line hne hc hr hh
  unfold classifyLine
  rw [if_neg hne]
  have hal : detectAlignment line = (Alignment.left, line) := by
    unfold detectAlignment
    rw [if_neg (by simp [hc]), if_neg (by simp [hr])]
  have hhd : detectHeading line = (0, line) := by
    unfold detectHeading
    rw [if_neg (by simp [beginsWith_hash3_false hh]),
      if_neg (by simp [beginsWith_hash2_false hh]), if_neg (by simp [hh])]
  simp [hal, hhd]

/-- Claim C3, witness: a line with an interior `#` but no marker prefix is
passed to the tokenizer unchanged. -/
theorem C3_witness :
    classifyLine ("a #b".data) =
      Block.textBlock 0 Alignment.left (parse_inline_formatting ("a #b".data)) :=
  C3_prefix_stages.1 _ (by decide) (by decide) (by decide) (by decide)

/-- Claim C5: the classifier emits exactly one block per input line, in
input order (it is the map of the per-line classifier over the split
lines, so the counts agree), and per line the block is a paragraph break
exactly when the line is empty after trimming, otherwise a single heading
or paragraph block. -/
theorem C5_one_block_per_line :
    (∀ s : List Char,
        parse_formatting s = (splitNl s).map classifyLine ∧
        (parse_formatting s).length = (splitNl s).length) ∧
    (∀ line : List Char,
        (stripChars line = [] ∧ classifyLine line = Block.paragraphBreak) ∨
        (stripChars line ≠ [] ∧
          ∃ lvl al runs, classifyLine line = Block.textBlock lvl al runs)) := by
  constructor
  · intro s
    have h : parse_formatting s = (splitNl s).map classifyLine := by
      unfold parse_formatting
      rw [parseLoop_eq]
      simp
    refine ⟨h, ?_⟩
    rw [h]
    simp
  · intro line
    by_cases hne : stripChars line = []
    · left
      refine ⟨hne, ?_⟩
      unfold classifyLine
      rw [if_pos hne]
    · right
      refine ⟨hne, (detectHeading (detectAlignment line).2).1,
        (detectAlignment line).1,
        parse_inline_formatting (detectHeading (detectAlignment line).2).2, ?_⟩
      unfold classifyLine
      rw [if_neg hne]

/-- Claim C5, witness: the block sequence for a three-line input is the
line-by-line map. -/
theorem C5_witness :
    parse_formatting ("a\n\nb".data) = (splitNl ("a\n\nb".data)).map classifyLine :=
  (C5_one_block_per_line.1 _).1

/-- Claim C6: the round-trip annotated text yields exactly the four blocks
of the scenario - a level-3 heading `Note`, a paragraph break, a
left-aligned paragraph whose five runs carry the italic `important` and
bold `urgent`, and a right-aligned paragraph `— signed`. -/
theorem C6_round_trip :
    parse_formatting
        ("### Note\n\nThis is *important* and **urgent**.\n[RIGHT]— signed".data) =
      [Block.textBlock 3 Alignment.left [⟨"Note".data, false, false⟩],
       Block.paragraphBreak,
       Block.textBlock 0 Alignment.left
         [⟨"This is ".data, false, false⟩, ⟨"important".data, false, true⟩,
          ⟨" and ".data, false, false⟩, ⟨"urgent".data, true, false⟩,
          ⟨".".data, false, false⟩],
       Block.textBlock 0 Alignment.right [⟨"— signed".data, false, false⟩]] ∧
    (parse_formatting
        ("### Note\n\nThis is *important* and **urgent**.\n[RIGHT]— signed".data)).map
        blockType =
      ["heading".data, "paragraph_break".data, "paragraph".data, "paragraph".data] ∧
    (parse_formatting
        ("### Note\n\nThis is *important* and **urgent**.\n[RIGHT]— signed".data)).length =
      4 := by
  refine ⟨by decide, by decide, by decide⟩

/-- Claim C8: heading detection tests `###`, then `##`, then `#`, mapping
them to levels 3, 2, 1; with no `#` prefix the stage records level 0 and
leaves the line untouched, and a level-0 text block has type `paragraph`;
the `#` prefix need not be followed by a space, so `#5` becomes a level-1
heading with run `5`. -/
theorem C8_heading_detection :
    (∀ line : List Char, beginsWith hash3 line = true →
        (detectHeading line).1 = 3) ∧
    (∀ line : List Char, beginsWith hash3 line = false →
        beginsWith hash2 line = true → (detectHeading line).1 = 2) ∧
    (∀ line : List Char, beginsWith hash3 line = false →
        beginsWith hash2 line = false → beginsWith hash1 line = true →
        (detectHeading line).1 = 1) ∧
    (∀ line : List Char, beginsWith hash1 line = false →
        detectHeading line = (0, line)) ∧
    (∀ (al : Alignment) (runs : List Run),
        blockType (Block.textBlock 0 al runs) = "paragraph".data) ∧
    classifyLine ("#5".data) =
      Block.textBlock 1 Alignment.left [⟨"5".data, false, false⟩] := by
  refine ⟨?_, ?_, ?_, ?_, ?_, by decide⟩
  · intro line h
    simp [detectHeading, h]
  · intro line h3 h2
    simp [detectHeading, h3, h2]
  · intro line h3 h2 h1
    simp [detectHeading, h3, h2, h1]
  · intro line h1
    simp [detectHeading, h1, beginsWith_hash3_false h1, beginsWith_hash2_false h1]
  · intro al runs
    rfl

/-- Claim C8, witness: a `##` line is detected as a level-2 heading. -/
theorem C8_witness : (detectHeading ("## Hi".data)).1 = 2 :=
  C8_heading_detection.2.1 _ (by decide) (by decide)

/-- Claim C9: block classification plus inline tokenization is a total
function in the embedding, and every block it produces is well-formed:
a paragraph break, or a text block with heading level at most 3 and a
non-empty run list in which no run is both bold and italic - malformed or
partial markers degrade to literal text instead of failing. -/
theorem C9_parsing_total (s : List Char) (b : Block)
    (hb : b ∈ parse_formatting s) : wfBlock b := by
  unfold parse_formatting at hb
  rw [parseLoop_eq] at hb
  simp at hb
  obtain ⟨line, -, hline⟩ := hb
  rw [← hline]
  exact classifyLine_wf line

/-- Claim C9, witness: the block produced for the malformed heading line
`#5` is well-formed. -/
theorem C9_witness :
    wfBlock (Block.textBlock 1 Alignment.left [⟨"5".data, false, false⟩]) :=
  C9_parsing_total ("#5".data) _ (by decide)

/-- Claim C7 is false as stated: the code tests the error field with a
bare `if`, so the non-null but empty error string is falsy and the
pipeline proceeds.  With a readable image, OCR error `""` and a
succeeding document generator, `convert` invokes the classifier and the
generator, creates the output file and returns success - it does not
return the `OCR failed:` result the claim requires for every non-null
error. -/
theorem C7_counterexample :
    (convert ("in.jpg".data) ("out.docx".data)
        ⟨true, ⟨"hi".data, some []⟩, fun _ => true⟩).1.success = true ∧
    (convert ("in.jpg".data) ("out.docx".data)
        ⟨true, ⟨"hi".data, some []⟩, fun _ => true⟩).1.message =
      "Conversion completed successfully!".data ∧
    (convert ("in.jpg".data) ("out.docx".data)
        ⟨true, ⟨"hi".data, some []⟩, fun _ => true⟩).2.parseInvoked = true ∧
    (convert ("in.jpg".data) ("out.docx".data)
        ⟨true, ⟨"hi".data, some []⟩, fun _ => true⟩).2.docgenInvoked = true ∧
    (convert ("in.jpg".data) ("out.docx".data)
        ⟨true, ⟨"hi".data, some []⟩, fun _ => true⟩).2.outputCreated = true := by
  exact ⟨rfl, rfl, rfl, rfl, rfl⟩

/-- Claim C7, amended: whenever the OCR collaborator reports a truthy
error - a non-null and non-empty string `e` - with a readable image, so
the pipeline reached the OCR stage, `convert` returns `success = false`
with message `OCR failed: e`, without invoking the block classifier or
the document generator and without creating the output file.  An
empty-string error is falsy for the bare `if` test and the pipeline
proceeds to parsing instead. -/
theorem C7_ocr_failure (imagePath outputPath : List Char) (env : ConvEnv)
    (e : List Char) (hr : env.imageReadable = true)
    (he : env.ocr.error = some e) (hne : e ≠ []) :
    (convert imagePath outputPath env).1 =
      ⟨false, "OCR failed: ".data ++ e, none⟩ ∧
    (convert imagePath outputPath env).2.parseInvoked = false ∧
    (convert imagePath outputPath env).2.docgenInvoked = false ∧
    (convert imagePath outputPath env).2.outputCreated = false := by
  obtain ⟨d, ds, hds⟩ := List.exists_cons_of_ne_nil hne
  subst hds
  simp [convert, hr, he, truthyError]

/-- Claim C7, witness: the quota-exceeded scenario of the specification. -/
theorem C7_witness :
    (convert ("in.jpg".data) ("out.docx".data)
        ⟨true, ⟨[], some ("quota exceeded".data)⟩, fun _ => true⟩).1 =
      ⟨false, "OCR failed: ".data ++ "quota exceeded".data, none⟩ ∧
    (convert ("in.jpg".data) ("out.docx".data)
        ⟨true, ⟨[], some ("quota exceeded".data)⟩, fun _ => true⟩).2.parseInvoked =
      false ∧
    (convert ("in.jpg".data) ("out.docx".data)
        ⟨true, ⟨[], some ("quota exceeded".data)⟩, fun _ => true⟩).2.docgenInvoked =
      false ∧
    (convert ("in.jpg".data) ("out.docx".data)
        ⟨true, ⟨[], some ("quota exceeded".data)⟩, fun _ => true⟩).2.outputCreated =
      false :=
  C7_ocr_failure _ _ _ _ rfl rfl (by decide)

/-- Claim C2 fails on the code: when OCR reports an error after the
preprocessed temp image was created, `convert` returns the failure result
from inside the pipeline, before the cleanup statement at lines 418-420 is
reached, so the temporary preprocessed image is still on disk when
`convert` returns. -/
theorem C2_temp_leak :
    (convert ("in.jpg".data) ("out.docx".data)
        ⟨true, ⟨[], some ("quota exceeded".data)⟩, fun _ => true⟩).2.tempCreated =
      true ∧
    (convert ("in.jpg".data) ("out.docx".data)
        ⟨true, ⟨[], some ("quota exceeded".data)⟩,
          fun _ => true⟩).2.tempExistsAtReturn = true ∧
    (convert ("in.jpg".data) ("out.docx".data)
        ⟨true, ⟨[], some ("quota exceeded".data)⟩, fun _ => true⟩).1.success =
      false := by
  exact ⟨rfl, rfl, rfl⟩

end MvpConverter
